import Mathlib

/-!
Shallow embedding of the `bn-uefi-helper` Binary Ninja plugin (`helper.py`).

The plugin enriches a partially analyzed UEFI firmware image: it loads a
GUID knowledge base from `guids.csv`, normalizes segments, fixes the entry
prototype, scans memory for known GUIDs, detects global assignments of UEFI
core-service pointers in HLIL, and names protocol variables found at call
sites through the boot-services table.

Host interactions (symbol definitions, data-variable definitions, segment
and section re-declarations, parameter retypings) are modelled as emitted
`Effect` values; Python exceptions that can escape a routine are modelled
as an `Option PyErr` component of the result.
-/

/-- Python exceptions that the plugin's code paths can raise. -/
inductive PyErr where
  | attributeError
  | indexError
  | typeError
  | valueError
deriving DecidableEq, Repr

/-- Binary Ninja section semantics values used by the plugin. -/
inductive SectionSem where
  | defaultSemantics
  | readOnlyCode
  | readOnlyData
  | readWriteData
deriving DecidableEq, Repr

/-- One host interaction emitted by the plugin (annotation requests and
other Binary Ninja API calls), with the arguments the Python code passes. -/
inductive Effect where
  | addUserSegment (start length dataOffset dataLength : Nat)
      (writable readable executable : Bool)
  | addUserSection (name : String) (lengthArg : Nat) (semantics : SectionSem)
  | addTypeLibrary (file : String)
  | importLibraryType (name : String)
  | defineUserSymbol (addr : Nat) (name : String)
  | defineUserDataVar (addr : Nat) (type : List String)
  | setParamName (funcAddr idx : Nat) (name : String)
  | setParamType (funcAddr idx : Nat) (type : List String)
  | setParamTypeStr (funcAddr idx : Nat) (type : String)
  | updateAnalysisAndWait
deriving DecidableEq, Repr

/-- A Binary Ninja variable: a name and the token list of its declared
type's display form (`var.type.tokens`, each token rendered with `str`). -/
structure Variable where
  name : String
  type : List String
deriving DecidableEq, Repr

/-- HLIL operation tags inspected by the plugin. -/
inductive HLILOp where
  | ASSIGN
  | ASSIGN_UNPACK
  | DEREF
  | CONST_PTR
  | VAR
  | CALL
  | TAILCALL
  | DEREF_FIELD
  | OTHER
deriving DecidableEq, Repr

/-- HLIL expressions, restricted to the shapes `helper.py` inspects:
`instr.operation`, `instr.dest`, `instr.src`, `instr.dest.src`,
`instr.dest.src.constant`, `instr.src.var`, `instr.params`,
`str(instr.dest)` for field dereferences. Everything else is `hOther`. -/
inductive HLILExpr where
  | hAssign (dest : HLILExpr) (src : HLILExpr)
  | hAssignUnpack (src : HLILExpr)
  | hDeref (src : HLILExpr)
  | hConstPtr (constant : Nat)
  | hVar (var : Variable)
  | hCall (dest : HLILExpr) (params : List HLILExpr)
  | hTailcall (dest : HLILExpr) (params : List HLILExpr)
  | hDerefField (display : String)
  | hOther

/-- The `operation` tag of an HLIL expression. -/
def HLILExpr.operation : HLILExpr → HLILOp
  | .hAssign _ _ => .ASSIGN
  | .hAssignUnpack _ => .ASSIGN_UNPACK
  | .hDeref _ => .DEREF
  | .hConstPtr _ => .CONST_PTR
  | .hVar _ => .VAR
  | .hCall _ _ => .CALL
  | .hTailcall _ _ => .TAILCALL
  | .hDerefField _ => .DEREF_FIELD
  | .hOther => .OTHER

/-- The `params` list of a call-like HLIL expression. -/
def HLILExpr.params : HLILExpr → List HLILExpr
  | .hCall _ ps => ps
  | .hTailcall _ ps => ps
  | _ => []

/-- A Binary Ninja segment (`seg.start`, `seg.end`, `seg.data_offset`,
`seg.data_length`); `stop` stands for the Python attribute `end`. -/
structure BNSegment where
  start : Nat
  stop : Nat
  data_offset : Nat
  data_length : Nat
deriving DecidableEq, Repr

/-- A Binary Ninja section (name and address range; `stop` stands for the
Python attribute `end`). -/
structure BNSection where
  name : String
  start : Nat
  stop : Nat
deriving DecidableEq, Repr

/-- A Binary Ninja function: its parameter variables and its HLIL
instructions (all basic blocks flattened in traversal order). -/
structure BNFunction where
  parameter_vars : List Variable
  hlil : List HLILExpr

/-- Python `dict` insertion on an insertion-ordered association list:
overwriting an existing key keeps its position, a new key is appended. -/
def dict_insert {β : Type} (k : String) (v : β) :
    List (String × β) → List (String × β)
  | [] => [(k, v)]
  | (k', v') :: rest =>
    if k' = k then (k, v) :: rest else (k', v') :: dict_insert k v rest

/-- Value of a hexadecimal digit, as accepted by Python's `int(s, 16)`. -/
def hex_val (c : Char) : Option Nat :=
  if '0' ≤ c ∧ c ≤ '9' then some (c.toNat - '0'.toNat)
  else if 'a' ≤ c ∧ c ≤ 'f' then some (c.toNat - 'a'.toNat + 10)
  else if 'A' ≤ c ∧ c ≤ 'F' then some (c.toNat - 'A'.toNat + 10)
  else none

/-- Pair up a list of hex-digit values into bytes (big-endian per byte). -/
def nibbles_to_bytes : List Nat → List Nat
  | a :: b :: rest => (a * 16 + b) :: nibbles_to_bytes rest
  | _ => []

/-- `uuid.UUID(guid).bytes_le` for a hyphenated hexadecimal GUID string:
hyphens are removed, the remaining 32 hex digits (case-insensitive) form
16 big-endian bytes, and the first three fields (4, 2 and 2 bytes) are
byte-swapped. Returns `none` when the string does not parse (Python raises
`ValueError`). -/
def uuid_bytes_le (s : String) : Option (List Nat) :=
  let hexChars := s.toList.filter (fun c => c ≠ '-')
  if hexChars.length = 32 then
    match hexChars.mapM hex_val with
    | none => none
    | some nibbles =>
      let b := nibbles_to_bytes nibbles
      some ((b.take 4).reverse ++ ((b.drop 4).take 2).reverse ++
            ((b.drop 6).take 2).reverse ++ b.drop 8)
  else none

/-- `_load_guids`: build the `guid -> name` dict from the CSV rows, then
the `name -> bytes_le` dict iterated in dict order. `none` models the
uncaught `ValueError` from `uuid.UUID` on a malformed GUID string. -/
def load_guids (rows : List (String × String)) :
    Option (List (String × List Nat)) :=
  let guids := rows.foldl (fun d gn => dict_insert gn.1 gn.2 d) []
  guids.foldlM (fun d gn =>
    match uuid_bytes_le gn.1 with
    | none => none
    | some b => some (dict_insert gn.2 b d)) []

/-- Dict lookup `self.guids[name]` (bytes of a named GUID). -/
def lookup_bytes (kb : List (String × List Nat)) (name : String) :
    Option (List Nat) :=
  (kb.find? (fun p => p.1 == name)).map (fun p => p.2)

/-- `_check_guid_and_get_name`: `names_list[guids_list.index(guid)]`, i.e.
the name of the first record whose bytes equal `guid`, else `None`. -/
def check_guid_and_get_name (kb : List (String × List Nat))
    (guid : List Nat) : Option String :=
  (kb.find? (fun p => p.2 == guid)).map (fun p => p.1)

/-- `bv.get_sections_at(addr)`: the sections containing `addr`. -/
def get_sections_at (sections : List BNSection) (addr : Nat) :
    List BNSection :=
  sections.filter (fun s => decide (s.start ≤ addr ∧ addr < s.stop))

/-- `_fix_segments`: re-declare each segment RWX and re-declare the
sections at each segment's start with read-write-data semantics, passing
the arguments exactly as the Python code does. -/
def fix_segments (segments : List BNSegment) (sections : List BNSection) :
    List Effect :=
  segments.flatMap (fun seg =>
    Effect.addUserSegment seg.start seg.data_length seg.data_offset
        seg.data_length true true true
      :: (get_sections_at sections seg.start).map (fun sec =>
          Effect.addUserSection sec.name (sec.stop - sec.start)
            SectionSem.readWriteData))

/-- `_import_types_from_headers`: load each discovered type library and
then bring in the eight fixed UEFI type names. -/
def import_types_from_headers (typelib_files : List String) : List Effect :=
  typelib_files.map Effect.addTypeLibrary ++
    (["EFI_GUID", "EFI_STATUS", "EFI_HANDLE", "EFI_SYSTEM_TABLE",
      "EFI_BOOT_SERVICES", "EFI_RUNTIME_SERVICES", "EFI_PEI_FILE_HANDLE",
      "EFI_PEI_SERVICES"].map Effect.importLibraryType)

/-- `_set_entry_point_prototype`: look up the entry function and, unless
the view type is `TE`, retype and rename its first two parameters in
order. A missing entry function raises `AttributeError`; an out-of-range
parameter index raises `IndexError`, after the earlier in-range
assignments have already been applied. -/
def set_entry_point_prototype (entry_point : Nat) (view_type : String)
    (get_function_at : Nat → Option BNFunction) :
    List Effect × Option PyErr :=
  if view_type ≠ "TE" then
    match get_function_at entry_point with
    | none => ([], some .attributeError)
    | some f =>
      if f.parameter_vars.length = 0 then ([], some .indexError)
      else if f.parameter_vars.length = 1 then
        ([.setParamTypeStr entry_point 0 "EFI_HANDLE",
          .setParamName entry_point 0 "ImageHandle"], some .indexError)
      else
        ([.setParamTypeStr entry_point 0 "EFI_HANDLE",
          .setParamName entry_point 0 "ImageHandle",
          .setParamTypeStr entry_point 1 "EFI_SYSTEM_TABLE *",
          .setParamName entry_point 1 "SystemTable"], none)
  else ([], none)

/-- `_apply_guid_name_if_data`: skip when the host reports functions at
the address, otherwise define the symbol `g<name>` and an `EFI_GUID` data
variable there. -/
def apply_guid_name_if_data (has_functions_at : Nat → Bool) (name : String)
    (address : Nat) : List Effect :=
  if has_functions_at address then []
  else [.defineUserSymbol address ("g" ++ name),
        .defineUserDataVar address ["EFI_GUID"]]

/-- `_find_known_guids`: scan every address of every segment, read a
16-byte window, look it up in the knowledge base and apply the name when
found (skipping short reads and falsy names). -/
def find_known_guids (has_functions_at : Nat → Bool)
    (read16 : Nat → Option (List Nat)) (kb : List (String × List Nat))
    (segments : List BNSegment) : List Effect :=
  segments.flatMap (fun seg =>
    (List.range' seg.start (seg.stop - seg.start)).flatMap (fun i =>
      match read16 i with
      | none => []
      | some data =>
        if data.length ≠ 16 then []
        else
          match check_guid_and_get_name kb data with
          | none => []
          | some found_name =>
            if found_name = "" then []
            else apply_guid_name_if_data has_functions_at found_name i))

/-- `_set_if_uefi_core_type`: on an assignment of a bare variable into a
dereferenced constant pointer, match the source variable's type tokens
against the UEFI core types, define the corresponding global symbol and a
data variable of the source's exact type, and (for `EFI_BOOT_SERVICES`)
record the destination address in the boot-services assignment list.
Result: emitted effects and the addresses appended to
`self.gbs_assignments`. -/
def set_if_uefi_core_type (instr : HLILExpr) : List Effect × List Nat :=
  match instr with
  | .hAssign (.hDeref (.hConstPtr c)) (.hVar v) =>
    let t := v.type
    if t.length = 1 ∧ t.head? = some "EFI_HANDLE" then
      ([.defineUserSymbol c "gHandle", .defineUserDataVar c t], [])
    else if t.length = 2 ∧ t.head? = some "EFI_BOOT_SERVICES" then
      ([.defineUserSymbol c "gBS", .defineUserDataVar c t], [c])
    else if t.length = 2 ∧ t.head? = some "EFI_RUNTIME_SERVICES" then
      ([.defineUserSymbol c "gRS", .defineUserDataVar c t], [])
    else if t.length = 2 ∧ t.head? = some "EFI_SYSTEM_TABLE" then
      ([.defineUserSymbol c "gST", .defineUserDataVar c t], [])
    else if t.length = 1 ∧ t.head? = some "EFI_PEI_FILE_HANDLE" then
      ([.defineUserSymbol c "gHandle", .defineUserDataVar c t], [])
    else if t.length = 2 ∧ t.head? = some "EFI_PEI_SERVICES" then
      ([.defineUserSymbol c "gPeiServices", .defineUserDataVar c t], [])
    else ([], [])
  | _ => ([], [])

/-- Does a character list occur as a contiguous substring of another?
Models Python's `in` on strings. -/
def contains_sub (pat : List Char) : List Char → Bool
  | [] => pat.isPrefixOf []
  | c :: rest => pat.isPrefixOf (c :: rest) || contains_sub pat rest

/-- The check `"EFI_" in str(typename)` on a type's token list, with
`str` modelled as the concatenation of the display tokens. -/
def efi_in_type (tokens : List String) : Bool :=
  contains_sub ['E', 'F', 'I', '_'] (String.join tokens).toList

/-- The parameter-propagation loop of `_check_and_prop_types_on_call`:
`for i in range(num_params)`, fetch `instr.params[i]` (raising
`IndexError` when out of range, with all earlier assignments kept), and
for direct variable arguments whose type mentions `EFI_`, rename and
retype the callee's i-th parameter. -/
def prop_call_params (callee_addr : Nat) (args : List HLILExpr) :
    Nat → List Variable → List Effect × Option PyErr
  | _, [] => ([], none)
  | i, _ :: rest =>
    match args.get? i with
    | none => ([], some .indexError)
    | some arg =>
      let es := match arg with
        | .hVar v =>
          if efi_in_type v.type then
            [Effect.setParamName callee_addr i v.name,
             Effect.setParamType callee_addr i v.type]
          else []
        | _ => []
      let r := prop_call_params callee_addr args (i + 1) rest
      (es ++ r.1, r.2)

/-- `_check_and_prop_types_on_call`: unwrap an assignment (plain or
unpacking) to its source, and for a call or tail call to a constant
address propagate `EFI_`-typed argument names and types onto the callee's
parameters. A missing callee raises `AttributeError`. -/
def check_and_prop_types_on_call (get_function_at : Nat → Option BNFunction)
    (instr : HLILExpr) : List Effect × Option PyErr :=
  let instr1 := match instr with
    | .hAssign _ src => src
    | .hAssignUnpack src => src
    | other => other
  match instr1 with
  | .hCall dest args | .hTailcall dest args =>
    match dest with
    | .hConstPtr c =>
      match get_function_at c with
      | none => ([], some .attributeError)
      | some func => prop_call_params c args 0 func.parameter_vars
    | _ => ([], none)
  | _ => ([], none)

/-- Run a fallible step over a list, concatenating effects and stopping
at the first raised exception (whose prior effects are kept). -/
def runEach {α : Type} (f : α → List Effect × Option PyErr) :
    List α → List Effect × Option PyErr
  | [] => ([], none)
  | x :: xs =>
    match f x with
    | (es, some e) => (es, some e)
    | (es, none) =>
      let r := runEach f xs
      (es ++ r.1, r.2)

/-- Phase B of `_set_global_variables`: run `_set_if_uefi_core_type` over
every instruction of every function, collecting the emitted effects and
the accumulated boot-services assignment list in program order. -/
def global_assignments (functions : List BNFunction) :
    List Effect × List Nat :=
  let instrs := functions.flatMap (fun f => f.hlil)
  (instrs.flatMap (fun i => (set_if_uefi_core_type i).1),
   instrs.flatMap (fun i => (set_if_uefi_core_type i).2))

/-- `_set_global_variables`: Phase A propagates call-site parameter types
through the entry function (a missing entry function raises
`AttributeError`), then Phase B detects global assignments in every
function. Result: (effects, boot-services assignment list) and the
exception aborting the pass, if any. -/
def set_global_variables (get_function_at : Nat → Option BNFunction)
    (entry_point : Nat) (functions : List BNFunction) :
    (List Effect × List Nat) × Option PyErr :=
  match get_function_at entry_point with
  | none => (([], []), some .attributeError)
  | some entry_func =>
    match runEach (check_and_prop_types_on_call get_function_at)
        entry_func.hlil with
    | (es, some e) => ((es, []), some e)
    | (es, none) =>
      let gb := global_assignments functions
      ((es ++ gb.1, gb.2), none)

/-- One left-to-right pass removing every non-overlapping occurrence of
`Guid` from a character list, with explicit fuel (the fuel never runs out
when it starts at the list length). Models Python's
`name.replace('Guid', '')`. -/
def remove_guid_aux : Nat → List Char → List Char
  | _, [] => []
  | 0, l => l
  | fuel + 1, c :: rest =>
    if c = 'G' ∧ rest.take 3 = ['u', 'i', 'd'] then
      remove_guid_aux fuel (rest.drop 3)
    else c :: remove_guid_aux fuel rest

/-- Python's `name.replace('Guid', '')`. -/
def replace_guid (name : String) : String :=
  String.mk (remove_guid_aux name.toList.length name.toList)

/-- Python's `s.endswith(suffix)`. -/
def ends_with (s suffix : String) : Bool :=
  suffix.toList.isSuffixOf s.toList

/-- `_name_proto_from_guid`: read 16 bytes at the GUID address (Python
raises `TypeError` on a `None` read, returns silently on a short read),
look the bytes up in the knowledge base, and on a hit with a truthy name
define the protocol-variable symbol, stripping with
`name.replace('Guid', '')` when the name ends in `Guid`. -/
def name_proto_from_guid (read16 : Nat → Option (List Nat))
    (kb : List (String × List Nat)) (guid_addr var_addr : Nat) :
    List Effect × Option PyErr :=
  match read16 guid_addr with
  | none => ([], some .typeError)
  | some guid =>
    if guid.length ≠ 16 then ([], none)
    else
      match check_guid_and_get_name kb guid with
      | none => ([], none)
      | some name =>
        if name = "" then ([], none)
        else
          let name1 := if ends_with name "Guid" then replace_guid name
                       else name
          ([.defineUserSymbol var_addr name1], none)

/-- `_name_protocol_var`: skip when the call has fewer parameters than the
larger of the two indices (a strict comparison in the source), fetch the
GUID and protocol-pointer arguments (raising `IndexError` when an index is
out of range), require both to be constant pointers, then derive the name
from the GUID. -/
def name_protocol_var (read16 : Nat → Option (List Nat))
    (kb : List (String × List Nat)) (instr : HLILExpr)
    (guid_idx proto_idx : Nat) : List Effect × Option PyErr :=
  let ps := instr.params
  if ps.length < max guid_idx proto_idx then ([], none)
  else
    match ps.get? guid_idx with
    | none => ([], some .indexError)
    | some (.hConstPtr guid_const) =>
      match ps.get? proto_idx with
      | none => ([], some .indexError)
      | some (.hConstPtr proto_const) =>
        name_proto_from_guid read16 kb guid_const proto_const
      | some _ => ([], none)
    | some _ => ([], none)

/-- The per-instruction body of `_name_protocol_vars`: match calls whose
destination is a field dereference whose display string ends in one of the
three recognized accessor paths, with their fixed argument indices. -/
def proto_call_step (read16 : Nat → Option (List Nat))
    (kb : List (String × List Nat)) (instr : HLILExpr) :
    List Effect × Option PyErr :=
  match instr with
  | .hCall (.hDerefField display) _ =>
    if ends_with display "->LocateProtocol" then
      name_protocol_var read16 kb instr 0 2
    else if ends_with display "->InstallMultipleProtocolInterfaces" then
      name_protocol_var read16 kb instr 1 2
    else if ends_with display "->InstallProtocolInterface" then
      name_protocol_var read16 kb instr 1 3
    else ([], none)
  | _ => ([], none)

/-- Processing of a single recorded boot-services assignment address in
`_name_protocol_vars`: walk its code references, and in the first function
containing each reference scan every HLIL instruction for recognized
protocol calls. -/
def process_assignment (read16 : Nat → Option (List Nat))
    (kb : List (String × List Nat)) (get_code_refs : Nat → List Nat)
    (get_functions_containing : Nat → List BNFunction)
    (assignment : Nat) : List Effect × Option PyErr :=
  runEach (fun xref =>
    match get_functions_containing xref with
    | [] => ([], none)
    | f :: _ => runEach (proto_call_step read16 kb) f.hlil)
    (get_code_refs assignment)

/-- `_name_protocol_vars`: process every address recorded in
`self.gbs_assignments`, in order and without deduplication. -/
def name_protocol_vars (read16 : Nat → Option (List Nat))
    (kb : List (String × List Nat)) (get_code_refs : Nat → List Nat)
    (get_functions_containing : Nat → List BNFunction)
    (gbs_assignments : List Nat) : List Effect × Option PyErr :=
  runEach
    (process_assignment read16 kb get_code_refs get_functions_containing)
    gbs_assignments

/-- The host collaborator state consumed by one plugin run. -/
structure Host where
  view_type : String
  entry_point : Nat
  segments : List BNSegment
  sections : List BNSection
  typelib_files : List String
  get_function_at : Nat → Option BNFunction
  has_functions_at : Nat → Bool
  read16 : Nat → Option (List Nat)
  functions : List BNFunction
  get_code_refs : Nat → List Nat
  get_functions_containing : Nat → List BNFunction

/-- `UEFIHelper.run` (with `__init__`'s GUID loading): the passes in their
fixed order, stopping at the first uncaught exception and keeping the
effects applied up to that point. -/
def run_helper (h : Host) (rows : List (String × String)) :
    List Effect × Option PyErr :=
  match load_guids rows with
  | none => ([], some .valueError)
  | some kb =>
    let e1 := fix_segments h.segments h.sections
    let e2 := import_types_from_headers h.typelib_files
    match set_entry_point_prototype h.entry_point h.view_type
        h.get_function_at with
    | (e3, some err) => (e1 ++ e2 ++ e3, some err)
    | (e3, none) =>
      let e4 := find_known_guids h.has_functions_at h.read16 kb h.segments
      match set_global_variables h.get_function_at h.entry_point
          h.functions with
      | ((e5, _), some err) => (e1 ++ e2 ++ e3 ++ e4 ++ e5, some err)
      | ((e5, gbs), none) =>
        let r6 := name_protocol_vars h.read16 kb h.get_code_refs
            h.get_functions_containing gbs
        (e1 ++ e2 ++ e3 ++ e4 ++ e5 ++ [Effect.updateAnalysisAndWait]
           ++ r6.1, r6.2)

/-- Modelled from the spec: strip only a trailing `Guid` suffix from a
matched name (the behavior §4.6 describes), for comparison with the
source's `replace`-based stripping. -/
def strip_trailing_guid_spec (name : String) : String :=
  if ends_with name "Guid" then String.mk (name.toList.dropLast.dropLast.dropLast.dropLast)
  else name

/-- Does an HLIL instruction match the boot-services branch of
`_set_if_uefi_core_type` with destination address `a`: an assignment of a
bare variable, whose type has exactly two tokens led by
`EFI_BOOT_SERVICES`, into a dereferenced constant pointer at `a`? -/
def is_bs_assign_to (a : Nat) : HLILExpr → Bool
  | .hAssign (.hDeref (.hConstPtr c)) (.hVar v) =>
    c == a && v.type.length == 2 && v.type.head? == some "EFI_BOOT_SERVICES"
  | _ => false

/-- The `bytes_le` form of `AAAAAAAA-BBBB-CCCC-DDDD-EEEEEEEEEEEE` (and of
its lowercase spelling, which `uuid.UUID` parses to the same value). -/
def dup_guid_bytes : List Nat :=
  [170, 170, 170, 170, 187, 187, 204, 204, 221, 221,
   238, 238, 238, 238, 238, 238]

/-- The `bytes_le` form of `11111111-2222-3333-4444-555555555555`, bytes
shared with no other record in the witness knowledge bases. -/
def clean_guid_bytes : List Nat :=
  [17, 17, 17, 17, 34, 34, 51, 51, 68, 68, 85, 85, 85, 85, 85, 85]

/-- A concrete host whose entry function exists but has only one
parameter, used to exercise the entry-prototype fixer. -/
def one_param_host : Host where
  view_type := "PE"
  entry_point := 4096
  segments := [⟨0, 2, 0, 2⟩]
  sections := [⟨".text", 0, 2⟩]
  typelib_files := []
  get_function_at := fun a =>
    if a = 4096 then some ⟨[⟨"arg1", ["int64_t"]⟩], []⟩ else none
  has_functions_at := fun _ => false
  read16 := fun _ => none
  functions := []
  get_code_refs := fun _ => []
  get_functions_containing := fun _ => []

/-- C1: a two-token `EFI_BOOT_SERVICES` source variable assigned through a
dereferenced constant pointer emits exactly the `gBS` symbol annotation
and a data-variable definition of the source's exact declared type at the
destination address, and appends that address to the boot-services
assignment list. -/
theorem c1_boot_services_assignment (a : Nat) (v : Variable) (t : String)
    (h : v.type = ["EFI_BOOT_SERVICES", t]) :
    set_if_uefi_core_type (.hAssign (.hDeref (.hConstPtr a)) (.hVar v)) =
      ([.defineUserSymbol a "gBS", .defineUserDataVar a v.type], [a]) := by
  simp [set_if_uefi_core_type, h]

theorem c1_witness :
    set_if_uefi_core_type
      (.hAssign (.hDeref (.hConstPtr 8192))
        (.hVar ⟨"var_10", ["EFI_BOOT_SERVICES", "*"]⟩)) =
      ([.defineUserSymbol 8192 "gBS",
        .defineUserDataVar 8192 ["EFI_BOOT_SERVICES", "*"]], [8192]) :=
  c1_boot_services_assignment 8192 ⟨"var_10", ["EFI_BOOT_SERVICES", "*"]⟩ "*" rfl

/-- C8: in Phase A, an entry-function instruction that is a plain or
unpacking assignment is unwrapped to its source before matching, so a call
or tail call to a constant address on the right-hand side of an assignment
propagates typed parameters to its callee exactly like the bare call
statement does. -/
theorem c8_assignment_unwrapped (g : Nat → Option BNFunction)
    (d : HLILExpr) (a : Nat) (ps : List HLILExpr) :
    check_and_prop_types_on_call g (.hAssign d (.hCall (.hConstPtr a) ps)) =
      check_and_prop_types_on_call g (.hCall (.hConstPtr a) ps) ∧
    check_and_prop_types_on_call g (.hAssignUnpack (.hCall (.hConstPtr a) ps)) =
      check_and_prop_types_on_call g (.hCall (.hConstPtr a) ps) ∧
    check_and_prop_types_on_call g (.hAssign d (.hTailcall (.hConstPtr a) ps)) =
      check_and_prop_types_on_call g (.hTailcall (.hConstPtr a) ps) ∧
    check_and_prop_types_on_call g (.hAssignUnpack (.hTailcall (.hConstPtr a) ps)) =
      check_and_prop_types_on_call g (.hTailcall (.hConstPtr a) ps) :=
  ⟨rfl, rfl, rfl, rfl⟩

/-- C3: evaluation of the code at the failing input of the off-by-one
bound check. A `LocateProtocol`-matched call whose argument list has
exactly two entries (the maximum of the two fixed indices, 0 and 2, being
2) passes the strict `<` guard, and fetching the protocol-pointer argument
at index 2 raises `IndexError` instead of skipping the call site. -/
theorem c3_offbyone_failing_input :
    name_protocol_var (fun _ => none) []
      (.hCall (.hDerefField "gBS->LocateProtocol")
        [.hConstPtr 4096, .hVar ⟨"a", ["int64_t"]⟩]) 0 2 =
      ([], some .indexError) := by decide

/-- C7: counterexample to the claim as stated. A section (`.data`,
range 50..60) covers part of the only segment's address range (0..100) but
does not contain the segment's start address, so the Segment Normalizer
emits no re-declaration for it at all: only the section containing the
segment start (`.text`) is reclassified. -/
theorem c7_counterexample :
    fix_segments [⟨0, 100, 0, 100⟩] [⟨".text", 0, 16⟩, ⟨".data", 50, 60⟩] =
      [.addUserSegment 0 100 0 100 true true true,
       .addUserSection ".text" 16 .readWriteData] ∧
    ((50 : Nat) < 100 ∧ (0 : Nat) < 60) ∧
    ∀ n s, Effect.addUserSection ".data" n s ∉
      fix_segments [⟨0, 100, 0, 100⟩] [⟨".text", 0, 16⟩, ⟨".data", 50, 60⟩] := by
  refine ⟨by decide, by decide, ?_⟩
  intro n s hmem
  have he : fix_segments [⟨0, 100, 0, 100⟩] [⟨".text", 0, 16⟩, ⟨".data", 50, 60⟩] =
      [.addUserSegment 0 100 0 100 true true true,
       .addUserSection ".text" 16 .readWriteData] := by decide
  rw [he] at hmem
  rcases List.mem_cons.mp hmem with h | h
  · exact absurd h (by simp)
  · rcases List.mem_singleton.mp h with h2
    injection h2 with h3 h4
    exact absurd h3 (by decide)

/-- C2: counterexample to the claim as stated. On a non-TE image whose
entry function has exactly one parameter, the Entry Prototype Fixer is not
a silent no-op: it retypes and renames the first parameter and then raises
`IndexError`, and the run aborts, so no later pass emits anything (the
output ends at the two parameter effects and carries the error). -/
theorem c2_counterexample :
    run_helper one_param_host [("AAAAAAAA-BBBB-CCCC-DDDD-EEEEEEEEEEEE", "TestGuid")] =
      ([.addUserSegment 0 2 0 2 true true true,
        .addUserSection ".text" 2 .readWriteData,
        .importLibraryType "EFI_GUID", .importLibraryType "EFI_STATUS",
        .importLibraryType "EFI_HANDLE", .importLibraryType "EFI_SYSTEM_TABLE",
        .importLibraryType "EFI_BOOT_SERVICES", .importLibraryType "EFI_RUNTIME_SERVICES",
        .importLibraryType "EFI_PEI_FILE_HANDLE", .importLibraryType "EFI_PEI_SERVICES",
        .setParamTypeStr 4096 0 "EFI_HANDLE",
        .setParamName 4096 0 "ImageHandle"],
       some .indexError) := by decide

/-- C2: the amended claim. The Entry Prototype Fixer is a no-op only for
the TE container variant; when the entry function cannot be located it
raises `AttributeError`, when the entry function has fewer than two
parameters it raises `IndexError` (after retyping the first parameter when
one exists), and the raised error aborts the run so that the remaining
passes do not run. -/
theorem c2_amended_entry_fixer_raises :
    (∀ ep g, set_entry_point_prototype ep "TE" g = ([], none)) ∧
    (∀ ep vt g, vt ≠ "TE" → g ep = none →
        set_entry_point_prototype ep vt g = ([], some .attributeError)) ∧
    (∀ ep vt g f, vt ≠ "TE" → g ep = some f → f.parameter_vars.length < 2 →
        (set_entry_point_prototype ep vt g).2 = some .indexError) ∧
    (∀ h rows kb, load_guids rows = some kb → h.view_type ≠ "TE" →
        h.get_function_at h.entry_point = none →
        run_helper h rows =
          (fix_segments h.segments h.sections ++
             import_types_from_headers h.typelib_files,
           some .attributeError)) := by
  refine ⟨?_, ?_, ?_, ?_⟩
  · intro ep g
    simp [set_entry_point_prototype]
  · intro ep vt g hvt hg
    simp [set_entry_point_prototype, hvt, hg]
  · intro ep vt g f hvt hg hlen
    rcases hf : f.parameter_vars.length with _ | n
    · simp [set_entry_point_prototype, hvt, hg, hf]
    · have hn : n = 0 := by omega
      subst hn
      simp [set_entry_point_prototype, hvt, hg, hf]
  · intro h rows kb hload hvt hg
    unfold run_helper
    rw [hload]
    have hset : set_entry_point_prototype h.entry_point h.view_type h.get_function_at =
        ([], some .attributeError) := by
      simp [set_entry_point_prototype, hvt, hg]
    rw [hset]
    simp

theorem c2_amended_witness :
    (set_entry_point_prototype 4096 "PE"
      (fun a => if a = 4096 then some ⟨[⟨"arg1", ["int64_t"]⟩], []⟩ else none)).2 =
        some .indexError ∧
    set_entry_point_prototype 4096 "PE" (fun _ => none) =
      ([], some .attributeError) :=
  ⟨c2_amended_entry_fixer_raises.2.2.1 4096 "PE" _ ⟨[⟨"arg1", ["int64_t"]⟩], []⟩
      (by decide) rfl (by decide),
   c2_amended_entry_fixer_raises.2.1 4096 "PE" (fun _ => none) (by decide) rfl⟩

/-- C7: the amended claim. For every loaded segment the Segment
Normalizer re-declares that segment with read+write+execute permissions,
and for every section containing that segment's start address it emits a
section re-declaration carrying the section's name, the section's size and
the read-write-data semantic kind. -/
theorem c7_amended_segment_normalizer (segments : List BNSegment)
    (sections : List BNSection) (seg : BNSegment) (hseg : seg ∈ segments) :
    Effect.addUserSegment seg.start seg.data_length seg.data_offset
        seg.data_length true true true ∈ fix_segments segments sections ∧
    ∀ sec ∈ get_sections_at sections seg.start,
      Effect.addUserSection sec.name (sec.stop - sec.start)
        SectionSem.readWriteData ∈ fix_segments segments sections := by
  unfold fix_segments
  constructor
  · exact List.mem_flatMap.mpr ⟨seg, hseg, List.mem_cons_self _ _⟩
  · intro sec hsec
    exact List.mem_flatMap.mpr
      ⟨seg, hseg, List.mem_cons_of_mem _ (List.mem_map_of_mem _ hsec)⟩

theorem c7_amended_witness :
    Effect.addUserSegment 0 100 0 100 true true true ∈
      fix_segments [⟨0, 100, 0, 100⟩] [⟨".text", 0, 16⟩] ∧
    Effect.addUserSection ".text" 16 SectionSem.readWriteData ∈
      fix_segments [⟨0, 100, 0, 100⟩] [⟨".text", 0, 16⟩] := by
  have h := c7_amended_segment_normalizer [⟨0, 100, 0, 100⟩]
    [⟨".text", 0, 16⟩] ⟨0, 100, 0, 100⟩ (by decide)
  exact ⟨h.1, h.2 ⟨".text", 0, 16⟩ (by decide)⟩

lemma prop_call_params_err_iff (c : Nat) (args : List HLILExpr)
    (i : Nat) (vars : List Variable) :
    (prop_call_params c args i vars).2 = none ↔
      (vars = [] ∨ i + vars.length ≤ args.length) := by
  induction vars generalizing i with
  | nil => simp [prop_call_params]
  | cons v rest ih =>
    rw [prop_call_params]
    cases hg : args.get? i with
    | none =>
      have hlen : args.length ≤ i := by
        rwa [List.get?_eq_none] at hg
      simp only [List.length_cons]
      constructor
      · intro h; exact absurd h (by simp)
      · rintro (h | h)
        · exact absurd h (by simp)
        · omega
    | some arg =>
      have hlen : i < args.length := by
        by_contra hcon
        rw [List.get?_eq_none.mpr (Nat.le_of_not_lt hcon)] at hg
        exact Option.noConfusion hg
      simp only []
      rw [ih (i + 1)]
      constructor
      · rintro (h | h)
        · subst h; right; simp only [List.length_cons, List.length_nil]; omega
        · right; simp only [List.length_cons]; omega
      · rintro (h | h)
        · exact absurd h (by simp)
        · rcases rest with _ | ⟨r, rs⟩
          · left; rfl
          · right; simp only [List.length_cons] at h ⊢; omega

/-- C9: Phase A parameter propagation on an entry-function call or tail
call to a constant address completes without an error exactly when a
function is defined at the target address and the call supplies at least
as many arguments as the callee declares parameters; a missing callee or a
short argument list raises, since neither condition is guarded. -/
theorem c9_propagation_precondition (g : Nat → Option BNFunction)
    (a : Nat) (ps : List HLILExpr) :
    ((check_and_prop_types_on_call g (.hCall (.hConstPtr a) ps)).2 = none ↔
      ∃ f, g a = some f ∧ f.parameter_vars.length ≤ ps.length) ∧
    ((check_and_prop_types_on_call g (.hTailcall (.hConstPtr a) ps)).2 = none ↔
      ∃ f, g a = some f ∧ f.parameter_vars.length ≤ ps.length) := by
  have key : ∀ r : List Effect × Option PyErr,
      (∀ f, g a = some f → r = prop_call_params a ps 0 f.parameter_vars) →
      (g a = none → r = ([], some .attributeError)) →
      (r.2 = none ↔ ∃ f, g a = some f ∧ f.parameter_vars.length ≤ ps.length) := by
    intro r h1 h2
    cases hg : g a with
    | none =>
      rw [h2 hg]
      simp [hg]
    | some f =>
      rw [h1 f hg]
      rw [prop_call_params_err_iff]
      constructor
      · rintro (h | h)
        · exact ⟨f, rfl, by simp [h]⟩
        · exact ⟨f, rfl, by omega⟩
      · rintro ⟨f', hf', hlen⟩
        injection hf' with hf'
        subst hf'
        right; omega
  constructor
  · exact key _ (fun f hf => by simp [check_and_prop_types_on_call, hf])
      (fun hf => by simp [check_and_prop_types_on_call, hf])
  · exact key _ (fun f hf => by simp [check_and_prop_types_on_call, hf])
      (fun hf => by simp [check_and_prop_types_on_call, hf])

lemma mem_apply_guid_name_if_data (hf : Nat → Bool) (n : String) (a : Nat)
    (e : Effect) (he : e ∈ apply_guid_name_if_data hf n a) :
    hf a = false ∧
    (e = .defineUserSymbol a ("g" ++ n) ∨ e = .defineUserDataVar a ["EFI_GUID"]) := by
  unfold apply_guid_name_if_data at he
  by_cases hfa : hf a = true
  · rw [if_pos hfa] at he
    exact absurd he (by simp)
  · rw [if_neg hfa] at he
    refine ⟨by simpa using hfa, ?_⟩
    rcases List.mem_cons.mp he with h | h
    · exact Or.inl h
    · exact Or.inr (List.mem_singleton.mp h)

lemma mem_find_known_guids (hf : Nat → Bool) (read16 : Nat → Option (List Nat))
    (kb : List (String × List Nat)) (segments : List BNSegment) (e : Effect)
    (he : e ∈ find_known_guids hf read16 kb segments) :
    ∃ i n, hf i = false ∧
      (e = .defineUserSymbol i ("g" ++ n) ∨ e = .defineUserDataVar i ["EFI_GUID"]) := by
  unfold find_known_guids at he
  rcases List.mem_flatMap.mp he with ⟨seg, _, he2⟩
  rcases List.mem_flatMap.mp he2 with ⟨i, _, he3⟩
  split at he3
  · exact absurd he3 (by simp)
  · split at he3
    · exact absurd he3 (by simp)
    · split at he3
      · exact absurd he3 (by simp)
      · rename_i n _
        split at he3
        · exact absurd he3 (by simp)
        · exact ⟨i, n, mem_apply_guid_name_if_data hf n i e he3⟩

/-- C6: the scanner exclusion invariant. For every address at which the
host reports an existing function, the Signature Scanner emits no
annotation request for that address, neither a symbol nor a data-variable
definition, even when the bytes there match a known GUID. -/
theorem c6_scanner_exclusion (has_functions_at : Nat → Bool)
    (read16 : Nat → Option (List Nat)) (kb : List (String × List Nat))
    (segments : List BNSegment) (addr : Nat)
    (h : has_functions_at addr = true) :
    ∀ name ty,
      Effect.defineUserSymbol addr name ∉
        find_known_guids has_functions_at read16 kb segments ∧
      Effect.defineUserDataVar addr ty ∉
        find_known_guids has_functions_at read16 kb segments := by
  intro name ty
  constructor
  · intro hmem
    rcases mem_find_known_guids _ _ _ _ _ hmem with ⟨i, n, hfi, hor | hor⟩
    · injection hor with h1 h2
      subst h1
      rw [h] at hfi
      exact Bool.noConfusion hfi
    · exact Effect.noConfusion hor
  · intro hmem
    rcases mem_find_known_guids _ _ _ _ _ hmem with ⟨i, n, hfi, hor | hor⟩
    · exact Effect.noConfusion hor
    · injection hor with h1 h2
      subst h1
      rw [h] at hfi
      exact Bool.noConfusion hfi

theorem c6_witness :
    (fun a => decide (a = 5)) 5 = true ∧
    Effect.defineUserSymbol 5 "gTestGuid" ∉
      find_known_guids (fun a => decide (a = 5)) (fun _ => some (List.range 16))
        [("TestGuid", List.range 16)] [⟨5, 6, 0, 6⟩] :=
  ⟨by decide,
   (c6_scanner_exclusion (fun a => decide (a = 5)) (fun _ => some (List.range 16))
      [("TestGuid", List.range 16)] [⟨5, 6, 0, 6⟩] 5 (by decide)
      "gTestGuid" ["EFI_GUID"]).1⟩

lemma set_if_uefi_core_type_gbs_count (i : HLILExpr) (a : Nat) :
    (set_if_uefi_core_type i).2.count a = if is_bs_assign_to a i then 1 else 0 := by
  cases i
  case hAssign d s =>
    cases d
    case hDeref d2 =>
      cases d2
      case hConstPtr c =>
        cases s
        case hVar v =>
          cases hbs : is_bs_assign_to a (.hAssign (.hDeref (.hConstPtr c)) (.hVar v))
          case true =>
            simp only [is_bs_assign_to, Bool.and_eq_true, beq_iff_eq] at hbs
            obtain ⟨⟨hca, hlen⟩, hhead⟩ := hbs
            subst hca
            simp [set_if_uefi_core_type, hlen, hhead, List.count_cons]
          case false =>
            have hne : ¬(c = a ∧ v.type.length = 2 ∧
                v.type.head? = some "EFI_BOOT_SERVICES") := by
              rintro ⟨hc, hl, hh⟩
              simp [is_bs_assign_to, hc, hl, hh] at hbs
            rw [if_neg (show ¬(false = true) by simp)]
            simp only [set_if_uefi_core_type]
            split_ifs with h1 h2 h3 h4 h5 h6
            · simp
            · rcases h2 with ⟨hl, hh⟩
              have hca : c ≠ a := fun hc => hne ⟨hc, hl, hh⟩
              simp [List.count_cons, hca, beq_iff_eq]
            · simp
            · simp
            · simp
            · simp
            · simp
        all_goals simp [set_if_uefi_core_type, is_bs_assign_to]
      all_goals simp [set_if_uefi_core_type, is_bs_assign_to]
    all_goals simp [set_if_uefi_core_type, is_bs_assign_to]
  all_goals simp [set_if_uefi_core_type, is_bs_assign_to]

/-- C10: the boot-services assignment list accumulates one entry per
matching assignment instruction with no deduplication: an address occurs
in the list exactly as many times as there are matching assignment
instructions across all functions storing to it, and the Protocol Name
Resolver processes each occurrence separately, enumerating that address's
cross-references once per occurrence. -/
theorem c10_no_dedup :
    (∀ functions a,
      ((global_assignments functions).2.count a =
        (functions.flatMap (fun f => f.hlil)).countP (is_bs_assign_to a))) ∧
    (∀ read16 kb get_code_refs get_functions_containing a es n,
      process_assignment read16 kb get_code_refs get_functions_containing a
          = (es, none) →
      name_protocol_vars read16 kb get_code_refs get_functions_containing
          (List.replicate n a) = ((List.replicate n es).flatten, none)) := by
  constructor
  · intro functions a
    unfold global_assignments
    induction functions.flatMap (fun f => f.hlil) with
    | nil => simp
    | cons i rest ih =>
      simp only [List.flatMap_cons, List.count_append, List.countP_cons]
      rw [ih, set_if_uefi_core_type_gbs_count]
      by_cases h : is_bs_assign_to a i
      · simp [h]
        omega
      · simp [h]
  · intro read16 kb get_code_refs get_functions_containing a es n h
    induction n with
    | zero => simp [name_protocol_vars, runEach]
    | succ n ih =>
      simp only [List.replicate_succ]
      unfold name_protocol_vars at ih ⊢
      rw [runEach]
      rw [h]
      rw [ih]
      simp [List.flatten]

theorem c10_witness :
    ((global_assignments
        [⟨[], [.hAssign (.hDeref (.hConstPtr 8192))
                (.hVar ⟨"v1", ["EFI_BOOT_SERVICES", "*"]⟩)]⟩,
         ⟨[], [.hAssign (.hDeref (.hConstPtr 8192))
                (.hVar ⟨"v2", ["EFI_BOOT_SERVICES", "*"]⟩), .hOther]⟩]).2.count 8192 =
      (([⟨[], [.hAssign (.hDeref (.hConstPtr 8192))
                (.hVar ⟨"v1", ["EFI_BOOT_SERVICES", "*"]⟩)]⟩,
         ⟨[], [.hAssign (.hDeref (.hConstPtr 8192))
                (.hVar ⟨"v2", ["EFI_BOOT_SERVICES", "*"]⟩), .hOther]⟩] :
            List BNFunction).flatMap (fun f => f.hlil)).countP (is_bs_assign_to 8192)) ∧
    process_assignment (fun _ => none) [] (fun _ => []) (fun _ => []) 8192
      = ([], none) ∧
    name_protocol_vars (fun _ => none) [] (fun _ => []) (fun _ => [])
      (List.replicate 3 8192) = ((List.replicate 3 ([] : List Effect)).flatten, none) :=
  ⟨c10_no_dedup.1 _ 8192, rfl,
   c10_no_dedup.2 (fun _ => none) [] (fun _ => []) (fun _ => []) 8192 [] 3 rfl⟩

lemma remove_guid_aux_nil (fuel : Nat) : remove_guid_aux fuel [] = [] := by
  cases fuel <;> rfl

lemma remove_guid_aux_fuel (fuel1 : Nat) :
    ∀ (fuel2 : Nat) (l : List Char), l.length ≤ fuel1 → l.length ≤ fuel2 →
      remove_guid_aux fuel1 l = remove_guid_aux fuel2 l := by
  induction fuel1 with
  | zero =>
    intro fuel2 l h1 h2
    have hl : l = [] := List.length_eq_zero.mp (Nat.le_zero.mp h1)
    subst hl
    rw [remove_guid_aux_nil, remove_guid_aux_nil]
  | succ f1 ih =>
    intro fuel2 l h1 h2
    cases l with
    | nil => rw [remove_guid_aux_nil, remove_guid_aux_nil]
    | cons c rest =>
      cases fuel2 with
      | zero => simp at h2
      | succ f2 =>
        rw [remove_guid_aux, remove_guid_aux]
        simp only [List.length_cons] at h1 h2
        split_ifs with hcond
        · exact ih f2 (rest.drop 3) (by simp only [List.length_drop]; omega)
            (by simp only [List.length_drop]; omega)
        · rw [ih f2 rest (by omega) (by omega)]

lemma remove_guid_aux_chunk (front rest : List Char) (fuel : Nat)
    (h : ¬ (['G', 'u', 'i', 'd'] <:+: front)) :
    remove_guid_aux (fuel + front.length + 1)
        (front ++ (['G', 'u', 'i', 'd'] ++ rest)) =
      front ++ remove_guid_aux fuel rest := by
  induction front with
  | nil =>
    show remove_guid_aux (fuel + 1) ('G' :: 'u' :: 'i' :: 'd' :: rest) =
      remove_guid_aux fuel rest
    rw [remove_guid_aux]
    rw [if_pos ⟨rfl, rfl⟩]
    rfl
  | cons c f ih =>
    show remove_guid_aux ((fuel + f.length + 1) + 1)
        (c :: (f ++ (['G', 'u', 'i', 'd'] ++ rest))) =
      c :: (f ++ remove_guid_aux fuel rest)
    rw [remove_guid_aux]
    split_ifs with hcond
    · exfalso
      obtain ⟨hc, htake⟩ := hcond
      subst hc
      rcases f with _ | ⟨a, _ | ⟨b, _ | ⟨d, f3⟩⟩⟩
      · simp only [List.nil_append, List.take_succ_cons, List.take_zero] at htake
        injection htake with h1 h2
        exact absurd h1 (by decide)
      · simp only [List.cons_append, List.nil_append, List.take_succ_cons,
          List.take_zero] at htake
        injection htake with h1 h2
        injection h2 with h3 h4
        exact absurd h3 (by decide)
      · simp only [List.cons_append, List.nil_append, List.take_succ_cons,
          List.take_zero] at htake
        injection htake with h1 h2
        injection h2 with h3 h4
        injection h4 with h5 h6
        exact absurd h5 (by decide)
      · simp only [List.cons_append, List.take_succ_cons, List.take_zero] at htake
        injection htake with h1 h2
        injection h2 with h3 h4
        injection h4 with h5 h6
        subst h1; subst h3; subst h5
        exact h (List.IsPrefix.isInfix ⟨f3, rfl⟩)
    · congr 1
      exact ih (fun hin => h (List.infix_cons hin))

lemma remove_guid_aux_flatten (parts : List (List Char))
    (hocc : ∀ p ∈ parts, ¬ (['G', 'u', 'i', 'd'] <:+: p)) :
    remove_guid_aux
        ((parts.map (fun p => p ++ ['G', 'u', 'i', 'd'])).flatten).length
        ((parts.map (fun p => p ++ ['G', 'u', 'i', 'd'])).flatten) =
      parts.flatten := by
  induction parts with
  | nil => rfl
  | cons p ps ih =>
    simp only [List.map_cons, List.flatten_cons]
    have hlen2 : ((p ++ ['G', 'u', 'i', 'd']) ++
        ((ps.map (fun p => p ++ ['G', 'u', 'i', 'd'])).flatten)).length =
        ((ps.map (fun p => p ++ ['G', 'u', 'i', 'd'])).flatten).length + 3
          + p.length + 1 := by
      simp only [List.length_append, List.length_cons, List.length_nil]
      omega
    rw [hlen2, List.append_assoc]
    rw [remove_guid_aux_chunk p _ _ (hocc p (List.mem_cons_self _ _))]
    rw [remove_guid_aux_fuel _
      ((ps.map (fun p => p ++ ['G', 'u', 'i', 'd'])).flatten).length _
      (by omega) (Nat.le_refl _)]
    rw [ih (fun q hq => hocc q (List.mem_cons_of_mem _ hq))]

lemma guid_suffix_flatten (parts : List (List Char)) (h : parts ≠ []) :
    ['G', 'u', 'i', 'd'] <:+
      (parts.map (fun p => p ++ ['G', 'u', 'i', 'd'])).flatten := by
  induction parts with
  | nil => exact absurd rfl h
  | cons p ps ih =>
    cases ps with
    | nil => exact ⟨p, by simp⟩
    | cons q qs =>
      obtain ⟨t, ht⟩ := ih (by simp)
      refine ⟨(p ++ ['G', 'u', 'i', 'd']) ++ t, ?_⟩
      calc ((p ++ ['G', 'u', 'i', 'd']) ++ t) ++ ['G', 'u', 'i', 'd']
          = (p ++ ['G', 'u', 'i', 'd']) ++ (t ++ ['G', 'u', 'i', 'd']) := by
            rw [List.append_assoc]
        _ = (p ++ ['G', 'u', 'i', 'd']) ++
              ((q :: qs).map (fun p => p ++ ['G', 'u', 'i', 'd'])).flatten := by
            rw [ht]
        _ = ((p :: q :: qs).map (fun p => p ++ ['G', 'u', 'i', 'd'])).flatten := rfl

/-- C4: the amended claim. When the matched name ends in `Guid`, the
emitted symbol name is the name with every left-to-right occurrence of the
substring `Guid` removed (Python `replace`), not only the trailing suffix.
Such a name is written here through its occurrence structure: `Guid`-free
stretches, each followed by one removed occurrence — every name ending in
`Guid` admits this decomposition, since `Guid` cannot overlap itself — and
the emitted symbol is the concatenation of the stretches alone. Names not
ending in `Guid` are emitted unchanged. -/
theorem c4_amended_strip_all_occurrences (read16 : Nat → Option (List Nat))
    (kb : List (String × List Nat)) (guid_addr var_addr : Nat)
    (g : List Nat) (name : String)
    (hr : read16 guid_addr = some g) (hlen : g.length = 16)
    (hkb : check_guid_and_get_name kb g = some name) :
    (∀ parts : List (List Char), parts ≠ [] →
        (∀ p ∈ parts, ¬ (['G', 'u', 'i', 'd'] <:+: p)) →
        name.toList = (parts.map (fun p => p ++ ['G', 'u', 'i', 'd'])).flatten →
        name_proto_from_guid read16 kb guid_addr var_addr =
          ([.defineUserSymbol var_addr (String.mk parts.flatten)], none)) ∧
    (ends_with name "Guid" = false → name ≠ "" →
        name_proto_from_guid read16 kb guid_addr var_addr =
          ([.defineUserSymbol var_addr name], none)) := by
  have hmain : ∀ out : String,
      (if ends_with name "Guid" then replace_guid name else name) = out →
      name ≠ "" →
      name_proto_from_guid read16 kb guid_addr var_addr =
        ([.defineUserSymbol var_addr out], none) := by
    intro out hout hne
    unfold name_proto_from_guid
    split
    · rename_i hnone
      rw [hr] at hnone
      exact Option.noConfusion hnone
    · rename_i guid hsome
      rw [hr] at hsome
      injection hsome with hg
      subst hg
      rw [if_neg (by simp [hlen])]
      split
      · rename_i hnone2
        rw [hkb] at hnone2
        exact Option.noConfusion hnone2
      · rename_i nm hsome2
        rw [hkb] at hsome2
        injection hsome2 with hnm
        subst hnm
        rw [if_neg hne]
        simp only [hout]
  constructor
  · intro parts hne0 hocc hname
    obtain ⟨data⟩ := name
    have hd : data = (parts.map (fun p => p ++ ['G', 'u', 'i', 'd'])).flatten :=
      hname
    subst hd
    have hnn :
        String.mk ((parts.map (fun p => p ++ ['G', 'u', 'i', 'd'])).flatten)
          ≠ "" := by
      intro h0
      have h1 : (parts.map (fun p => p ++ ['G', 'u', 'i', 'd'])).flatten =
          ([] : List Char) := congrArg String.toList h0
      rcases parts with _ | ⟨p, ps⟩
      · exact hne0 rfl
      · simp only [List.map_cons, List.flatten_cons] at h1
        have h2 := congrArg List.length h1
        simp only [List.length_append, List.length_cons, List.length_nil] at h2
        omega
    apply hmain _ _ hnn
    have hsuf : ends_with
        (String.mk ((parts.map (fun p => p ++ ['G', 'u', 'i', 'd'])).flatten))
        "Guid" = true := by
      unfold ends_with
      rw [List.isSuffixOf_iff_suffix]
      exact guid_suffix_flatten parts hne0
    rw [if_pos hsuf]
    unfold replace_guid
    congr 1
    exact remove_guid_aux_flatten parts hocc
  · intro hnsuf hne
    apply hmain _ _ hne
    rw [if_neg (by simp [hnsuf])]

theorem c4_amended_witness :
    name_proto_from_guid (fun _ => some (List.range 16))
        [("AGuidBGuid", List.range 16)] 4096 12288 =
      ([.defineUserSymbol 12288
          (String.mk (([['A'], ['B']] : List (List Char)).flatten))], none) :=
  (c4_amended_strip_all_occurrences (fun _ => some (List.range 16))
      [("AGuidBGuid", List.range 16)] 4096 12288 (List.range 16) "AGuidBGuid"
      rfl (by decide) (by decide)).1
    [['A'], ['B']] (by decide) (by decide) (by decide)

/-- C4: counterexample to the claim as stated. For the matched name
`GuidXGuid` the resolver emits the symbol `X`: the non-trailing occurrence
of `Guid` is removed as well, whereas stripping only the trailing suffix
would yield `GuidX`. -/
theorem c4_counterexample :
    name_proto_from_guid (fun a => if a = 4096 then some (List.range 16) else none)
        [("GuidXGuid", List.range 16)] 4096 12288 =
      ([.defineUserSymbol 12288 "X"], none) ∧
    strip_trailing_guid_spec "GuidXGuid" = "GuidX" ∧
    ("X" : String) ≠ "GuidX" := by
  refine ⟨by decide, by decide, by decide⟩

lemma dict_insert_mem_keys {β : Type} (k x : String) (v : β)
    (d : List (String × β)) :
    x ∈ (dict_insert k v d).map Prod.fst ↔ x = k ∨ x ∈ d.map Prod.fst := by
  induction d with
  | nil => simp [dict_insert]
  | cons p rest ih =>
    obtain ⟨k', v'⟩ := p
    by_cases hk : k' = k
    · subst hk
      simp [dict_insert]
    · simp only [dict_insert, if_neg hk, List.map_cons, List.mem_cons, ih]
      tauto

lemma dict_insert_keys_nodup {β : Type} (k : String) (v : β)
    (d : List (String × β)) (h : (d.map Prod.fst).Nodup) :
    ((dict_insert k v d).map Prod.fst).Nodup := by
  induction d with
  | nil => simp [dict_insert]
  | cons p rest ih =>
    obtain ⟨k', v'⟩ := p
    simp only [List.map_cons, List.nodup_cons] at h
    by_cases hk : k' = k
    · subst hk
      simpa [dict_insert] using h
    · simp only [dict_insert, if_neg hk, List.map_cons, List.nodup_cons]
      refine ⟨?_, ih h.2⟩
      rw [dict_insert_mem_keys]
      rintro (h1 | h1)
      · exact hk h1
      · exact h.1 h1

lemma load_guids_fold_nodup (l : List (String × String))
    (acc kb : List (String × List Nat))
    (hacc : (acc.map Prod.fst).Nodup)
    (h : (l.foldlM (fun d gn =>
        match uuid_bytes_le gn.1 with
        | none => none
        | some b => some (dict_insert gn.2 b d)) acc) = some kb) :
    (kb.map Prod.fst).Nodup := by
  induction l generalizing acc with
  | nil =>
    simp only [List.foldlM_nil] at h
    injection h with h
    subst h
    exact hacc
  | cons gn rest ih =>
    rw [List.foldlM_cons] at h
    cases hu : uuid_bytes_le gn.1 with
    | none => rw [hu] at h; exact Option.noConfusion h
    | some b =>
      rw [hu] at h
      exact ih (dict_insert gn.2 b acc) (dict_insert_keys_nodup _ _ _ hacc) h

lemma load_guids_keys_nodup (rows : List (String × String))
    (kb : List (String × List Nat)) (h : load_guids rows = some kb) :
    (kb.map Prod.fst).Nodup := by
  unfold load_guids at h
  exact load_guids_fold_nodup _ _ _ (by simp) h

lemma find_by_key (kb : List (String × List Nat)) (n : String) (b : List Nat)
    (hnodup : (kb.map Prod.fst).Nodup) (hmem : (n, b) ∈ kb) :
    kb.find? (fun p => p.1 == n) = some (n, b) := by
  induction kb with
  | nil => exact absurd hmem (by simp)
  | cons p rest ih =>
    obtain ⟨k, v⟩ := p
    simp only [List.map_cons, List.nodup_cons] at hnodup
    rcases List.mem_cons.mp hmem with h1 | h1
    · injection h1 with hk hv
      subst hk; subst hv
      rw [List.find?_cons_of_pos _ (by simp)]
    · have hk : k ≠ n := by
        intro hkeq
        subst hkeq
        exact hnodup.1 (by simpa using List.mem_map_of_mem Prod.fst h1)
      rw [List.find?_cons_of_neg _ (by simp [hk])]
      exact ih hnodup.2 h1

lemma find_skip (kb1 rest : List (String × List Nat)) (b : List Nat)
    (hno : ∀ q ∈ kb1, q.2 ≠ b) :
    (kb1 ++ rest).find? (fun q => q.2 == b) =
      rest.find? (fun q => q.2 == b) := by
  induction kb1 with
  | nil => rfl
  | cons q l ih =>
    rw [List.cons_append,
      List.find?_cons_of_neg _ (by simp [hno q (List.mem_cons_self _ _)])]
    exact ih (fun p hp => hno p (List.mem_cons_of_mem _ hp))

/-- C5: the amended claim. For every record of a successfully loaded
knowledge base whose bytes are shared by no other record with a different
name, looking up the record's name and then looking the returned bytes up
again yields the same name; and whenever a record's bytes are shared, the
round trip on its name returns the name of the earliest-loaded record
carrying those bytes, since the lookup by bytes returns the first match in
load order. -/
theorem c5_amended_roundtrip (rows : List (String × String))
    (kb : List (String × List Nat)) (n : String) (b : List Nat)
    (hload : load_guids rows = some kb) (hmem : (n, b) ∈ kb) :
    lookup_bytes kb n = some b ∧
    ((∀ q ∈ kb, q.2 = b → q.1 = n) →
        check_guid_and_get_name kb b = some n ∧
        (lookup_bytes kb n).bind (check_guid_and_get_name kb) = some n) ∧
    (∀ (kb1 : List (String × List Nat)) (m : String)
        (kb2 : List (String × List Nat)),
        kb = kb1 ++ (m, b) :: kb2 → (∀ q ∈ kb1, q.2 ≠ b) →
        (lookup_bytes kb n).bind (check_guid_and_get_name kb) = some m) := by
  have hnd := load_guids_keys_nodup rows kb hload
  have h1 : lookup_bytes kb n = some b := by
    unfold lookup_bytes
    rw [find_by_key kb n b hnd hmem]
    rfl
  refine ⟨h1, ?_, ?_⟩
  · intro hshare
    have hfind : ∃ p, kb.find? (fun q => q.2 == b) = some p := by
      cases hf : kb.find? (fun q => q.2 == b) with
      | none =>
        rw [List.find?_eq_none] at hf
        exact absurd (by simp : (((n, b).2 == b) = true)) (hf (n, b) hmem)
      | some p => exact ⟨p, rfl⟩
    obtain ⟨p, hp⟩ := hfind
    have hpb : p.2 = b := by
      have hps := List.find?_some hp
      simpa using hps
    have hpn : p.1 = n := hshare p (List.mem_of_find?_eq_some hp) hpb
    have h2 : check_guid_and_get_name kb b = some n := by
      unfold check_guid_and_get_name
      rw [hp]
      simp [hpn]
    refine ⟨h2, ?_⟩
    rw [h1]
    simpa using h2
  · intro kb1 m kb2 hsplit hno
    have h2 : check_guid_and_get_name kb b = some m := by
      unfold check_guid_and_get_name
      rw [hsplit, find_skip kb1 _ b hno, List.find?_cons_of_pos _ (by simp)]
      rfl
    rw [h1]
    simpa using h2

/-- C5: counterexample to the claim as stated. Two rows whose GUID
strings are case variants of the same identifier parse to identical bytes;
both records load successfully under different names, and the round trip
on the later name `N2` returns the earlier name `N1`. -/
theorem c5_counterexample :
    load_guids [("AAAAAAAA-BBBB-CCCC-DDDD-EEEEEEEEEEEE", "N1"),
                ("aaaaaaaa-bbbb-cccc-dddd-eeeeeeeeeeee", "N2")] =
      some [("N1", dup_guid_bytes), ("N2", dup_guid_bytes)] ∧
    ("N2", dup_guid_bytes) ∈ [("N1", dup_guid_bytes), ("N2", dup_guid_bytes)] ∧
    (lookup_bytes [("N1", dup_guid_bytes), ("N2", dup_guid_bytes)] "N2").bind
      (check_guid_and_get_name [("N1", dup_guid_bytes), ("N2", dup_guid_bytes)]) =
      some "N1" ∧
    ("N1" : String) ≠ "N2" := by
  refine ⟨by decide, by decide, by decide, by decide⟩

theorem c5_amended_witness :
    (lookup_bytes
        [("N1", dup_guid_bytes), ("N2", dup_guid_bytes),
         ("Clean", clean_guid_bytes)] "Clean").bind
      (check_guid_and_get_name
        [("N1", dup_guid_bytes), ("N2", dup_guid_bytes),
         ("Clean", clean_guid_bytes)]) = some "Clean" ∧
    (lookup_bytes
        [("N1", dup_guid_bytes), ("N2", dup_guid_bytes),
         ("Clean", clean_guid_bytes)] "N2").bind
      (check_guid_and_get_name
        [("N1", dup_guid_bytes), ("N2", dup_guid_bytes),
         ("Clean", clean_guid_bytes)]) = some "N1" :=
  ⟨((c5_amended_roundtrip
      [("AAAAAAAA-BBBB-CCCC-DDDD-EEEEEEEEEEEE", "N1"),
       ("aaaaaaaa-bbbb-cccc-dddd-eeeeeeeeeeee", "N2"),
       ("11111111-2222-3333-4444-555555555555", "Clean")]
      [("N1", dup_guid_bytes), ("N2", dup_guid_bytes),
       ("Clean", clean_guid_bytes)]
      "Clean" clean_guid_bytes (by decide) (by decide)).2.1 (by decide)).2,
   (c5_amended_roundtrip
      [("AAAAAAAA-BBBB-CCCC-DDDD-EEEEEEEEEEEE", "N1"),
       ("aaaaaaaa-bbbb-cccc-dddd-eeeeeeeeeeee", "N2"),
       ("11111111-2222-3333-4444-555555555555", "Clean")]
      [("N1", dup_guid_bytes), ("N2", dup_guid_bytes),
       ("Clean", clean_guid_bytes)]
      "N2" dup_guid_bytes (by decide) (by decide)).2.2
     [] "N1" [("N2", dup_guid_bytes), ("Clean", clean_guid_bytes)] rfl
     (by decide)⟩
